import Mathlib

/-!
Verification of the room/state synchronization core of the 3D hex grid
application.  The Protocol Gateway is embedded from `src/server/server.js`
(the socket event handlers).  The room store it calls (`RoomManager.js`,
listed in the repository README under `server/` and required by
`server.js`, but not present among the sources) is modelled from the
specification, §4.1–§4.2.

Conventions of the embedding:
  - connection ids, room codes, cell ids, payload keys and payload values
    are strings (payload values are uninterpreted by the core, which
    never inspects them, so a string stands in for arbitrary data);
  - JavaScript objects are association lists; `lookupA` finds the first
    binding of a key, `setA` replaces the binding of a key in place or
    appends it, mirroring property assignment on an object;
  - each socket event handler of `server.js` becomes one arm of `step`,
    which returns the new store plus the list of emitted messages, each
    tagged with its recipient connection.  `io.to(room)` delivers to every
    member of the room, `socket.to(room)` to every member except the
    sender, and a room unknown to socket.io delivers to nobody.
-/

namespace HexServer

abbrev ConnId := String
abbrev Code := String
abbrev CellId := String
abbrev Key := String
abbrev Value := String
abbrev Obj := List (Key × Value)
abbrev Cells := List (CellId × Obj)

/-- First binding of key `k` in an association list, like JS property read. -/
def lookupA {β : Type} (k : String) : List (String × β) → Option β
  | [] => none
  | p :: ps => if p.1 = k then some p.2 else lookupA k ps

/-- Whether key `k` is bound in the association list. -/
def hasKeyA {β : Type} (k : String) (l : List (String × β)) : Bool :=
  (lookupA k l).isSome

/-- JS property assignment `o[k] = v`: replace the first binding of `k`,
or append a fresh binding when `k` is unbound. -/
def setA {β : Type} (k : String) (v : β) : List (String × β) → List (String × β)
  | [] => [(k, v)]
  | p :: ps => if p.1 = k then (k, v) :: ps else p :: setA k v ps

/-- Modelled from the spec: the cell-state merge (§3, "Cell state
payload").  Top-level keys of the incoming payload overwrite existing
keys of the same name; keys absent from the incoming payload are
preserved from the old state. -/
def mergeObj (old pay : Obj) : Obj :=
  old.filter (fun p => ! hasKeyA p.1 pay) ++ pay

/-- Modelled from the spec: a Room (§3) holds the membership set and the
cell-state map.  `RoomManager.js` is missing from the sources. -/
structure Room where
  members : List ConnId
  cells : Cells
deriving DecidableEq

/-- Modelled from the spec: the Room Store (§4.2), an in-memory table of
rooms keyed by room code. -/
structure RoomManager where
  rooms : List (Code × Room)
deriving DecidableEq

/-- Modelled from the spec: the Code Generator (§4.1).  `draws` is the
capped sequence of random draws; the generator returns the first draw
that does not collide with a currently-live room code, and fails when
the draws are exhausted. -/
def generate (draws : List Code) (live : List Code) : Option Code :=
  draws.find? (fun c => decide (c ∉ live))

/-- Membership insertion: the membership is a set of connection ids, so
re-adding a present member changes nothing. -/
def addMember (conn : ConnId) (ms : List ConnId) : List ConnId :=
  if conn ∈ ms then ms else conn :: ms

/-- Modelled from the spec: `createRoom` (§4.2) allocates a fresh unique
code, registers a room with the owner as sole member and empty cells,
and returns the code; it fails only when the code draws are exhausted. -/
def createRoom (rm : RoomManager) (owner : ConnId) (draws : List Code) :
    Option (RoomManager × Code) :=
  match generate draws (rm.rooms.map Prod.fst) with
  | none => none
  | some code => some (⟨(code, ⟨[owner], []⟩) :: rm.rooms⟩, code)

inductive RoomError where
  | roomNotFound
deriving DecidableEq

inductive JoinResult where
  | success (state : Cells)
  | failure (err : RoomError)
deriving DecidableEq

/-- Modelled from the spec: `joinRoom` (§4.2) looks the room up; if
absent it fails with `RoomNotFound`; otherwise it adds the connection to
the membership and returns a snapshot copy of the full cells map. -/
def joinRoom (rm : RoomManager) (code : Code) (conn : ConnId) :
    RoomManager × JoinResult :=
  match lookupA code rm.rooms with
  | none => (rm, .failure .roomNotFound)
  | some room =>
      (⟨setA code ⟨addMember conn room.members, room.cells⟩ rm.rooms⟩,
       .success room.cells)

/-- Modelled from the spec: `updateHexState` (§4.2) returns `false` when
the room does not exist; otherwise it merges the payload into
`cells[cellId]`, creating the entry if new, and returns `true`. -/
def updateHexState (rm : RoomManager) (code : Code) (hexId : CellId)
    (action : Obj) : RoomManager × Bool :=
  match lookupA code rm.rooms with
  | none => (rm, false)
  | some room =>
      (⟨setA code
          ⟨room.members,
           setA hexId (mergeObj ((lookupA hexId room.cells).getD []) action)
             room.cells⟩
          rm.rooms⟩,
       true)

/-- Modelled from the spec: per-room effect of a disconnect — remove the
connection from the membership; destroy the room when the membership
becomes empty (§4.2, destruction policy). -/
def removeRoomUser (conn : ConnId) (p : Code × Room) : Option (Code × Room) :=
  if conn ∈ p.2.members then
    if p.2.members.filter (fun m => decide (m ≠ conn)) = [] then none
    else some (p.1, ⟨p.2.members.filter (fun m => decide (m ≠ conn)), p.2.cells⟩)
  else some p

/-- Modelled from the spec: `removeUserFromRooms` (named as in
`server.js`; the spec calls it `removeConnection`, §4.2) removes the
connection from every room, destroying rooms left empty, and returns the
codes of the rooms the connection left. -/
def removeUserFromRooms (rm : RoomManager) (conn : ConnId) :
    RoomManager × List Code :=
  (⟨rm.rooms.filterMap (removeRoomUser conn)⟩,
   (rm.rooms.filter (fun p => decide (conn ∈ p.2.members))).map Prod.fst)

/-- Outbound protocol messages of `server.js`, tagged by event name. -/
inductive Msg where
  | roomCreated (code : Code)
  | roomJoined (code : Code) (state : Cells)
  | userJoined (uid : ConnId)
  | roomError (err : RoomError)
  | hexUpdated (hexId : CellId) (action : Obj)
  | chatMessage (userId : ConnId) (message : String) (timestamp : Nat)
  | userLeft (uid : ConnId)
deriving DecidableEq

/-- An emitted message together with the connection that receives it. -/
abbrev Emit := ConnId × Msg

/-- Inbound socket events handled by `server.js`.  `draws` feeds the code
generator; `now` is the clock value read by `Date.now()`. -/
inductive Event where
  | createRoom (sender : ConnId) (draws : List Code)
  | joinRoom (sender : ConnId) (code : Code)
  | hexClicked (sender : ConnId) (code : Code) (hexId : CellId) (action : Obj)
  | chatMessage (sender : ConnId) (code : Code) (message : String) (now : Nat)
  | disconnect (sender : ConnId)
deriving DecidableEq

/-- Members of the socket.io room `code`: under the lockstep maintained by
`server.js` (`socket.join` beside every successful store join, automatic
leave on disconnect beside `removeUserFromRooms`) these are exactly the
room's members, and an absent room delivers to nobody. -/
def membersOf (rm : RoomManager) (code : Code) : List ConnId :=
  ((lookupA code rm.rooms).map Room.members).getD []

/-- Messages sent by `socket.to(code).emit` of the user-left broadcast:
every member of the room except the disconnecting sender. -/
def userLeftEmits (rm : RoomManager) (s : ConnId) (code : Code) : List Emit :=
  ((membersOf rm code).filter (fun m => decide (m ≠ s))).map
    (fun m => (m, Msg.userLeft s))

/-- The Protocol Gateway: one arm per socket event handler of
`server.js`, returning the new store and the emitted messages. -/
def step (rm : RoomManager) : Event → RoomManager × List Emit
  | .createRoom sender draws =>
      match createRoom rm sender draws with
      | none => (rm, [])
      | some (rm1, code) => (rm1, [(sender, .roomCreated code)])
  | .joinRoom sender code =>
      match joinRoom rm code sender with
      | (rm1, .success st) =>
          (rm1, (sender, .roomJoined code st) ::
            ((membersOf rm1 code).filter (fun m => decide (m ≠ sender))).map
              (fun m => (m, .userJoined sender)))
      | (rm1, .failure e) => (rm1, [(sender, .roomError e)])
  | .hexClicked _sender code hexId action =>
      match updateHexState rm code hexId action with
      | (rm1, true) =>
          (rm1, (membersOf rm1 code).map (fun m => (m, .hexUpdated hexId action)))
      | (rm1, false) => (rm1, [])
  | .chatMessage sender code message now =>
      (rm, (membersOf rm code).map (fun m => (m, .chatMessage sender message now)))
  | .disconnect sender =>
      match removeUserFromRooms rm sender with
      | (rm1, codes) =>
          (rm1, codes.foldr (fun c acc => userLeftEmits rm1 sender c ++ acc) [])

/-- Run a sequence of events, concatenating the emitted messages in
gateway-receipt order. -/
def run (rm : RoomManager) : List Event → RoomManager × List Emit
  | [] => (rm, [])
  | e :: es =>
      ((run (step rm e).1 es).1, (step rm e).2 ++ (run (step rm e).1 es).2)

/-- The store of a freshly started server: no rooms. -/
def initRM : RoomManager := ⟨[]⟩

/-- States of the store reachable by some event sequence from startup. -/
def Reachable (rm : RoomManager) : Prop :=
  ∃ tr : List Event, (run initRM tr).1 = rm

/-- The two structural invariants of the store: every live room has at
least one member, and live room codes are pairwise distinct. -/
def Inv (rm : RoomManager) : Prop :=
  (∀ p ∈ rm.rooms, p.2.members ≠ []) ∧ (rm.rooms.map Prod.fst).Nodup

/-! Association-list lemmas. -/

theorem lookupA_setA_self {β : Type} (k : String) (v : β) (l : List (String × β)) :
    lookupA k (setA k v l) = some v := by
  induction l with
  | nil => simp [setA, lookupA]
  | cons p ps ih =>
      by_cases h : p.1 = k
      · simp [setA, h, lookupA]
      · simp [setA, h, lookupA, ih]

theorem lookupA_setA_ne {β : Type} {k k' : String} (v : β) (l : List (String × β))
    (h : k' ≠ k) : lookupA k' (setA k v l) = lookupA k' l := by
  induction l with
  | nil => simp [setA, lookupA, Ne.symm h]
  | cons p ps ih =>
      by_cases hp : p.1 = k
      · simp [setA, hp, lookupA, Ne.symm h]
      · simp [setA, hp, lookupA, ih]

theorem setA_setA {β : Type} (k : String) (v w : β) (l : List (String × β)) :
    setA k v (setA k w l) = setA k v l := by
  induction l with
  | nil => simp [setA]
  | cons p ps ih =>
      by_cases h : p.1 = k
      · simp [setA, h]
      · simp [setA, h, ih]

theorem map_fst_setA {β : Type} {k : String} (v : β) {l : List (String × β)}
    (h : hasKeyA k l = true) : (setA k v l).map Prod.fst = l.map Prod.fst := by
  induction l with
  | nil => simp [hasKeyA, lookupA] at h
  | cons p ps ih =>
      by_cases hp : p.1 = k
      · simp [setA, hp]
      · have h' : hasKeyA k ps = true := by simpa [hasKeyA, lookupA, hp] using h
        simp [setA, hp, ih h']

theorem hasKeyA_of_mem {β : Type} {p : String × β} {l : List (String × β)}
    (h : p ∈ l) : hasKeyA p.1 l = true := by
  induction l with
  | nil => simp at h
  | cons q ps ih =>
      rcases List.mem_cons.mp h with h | h
      · subst h; simp [hasKeyA, lookupA]
      · by_cases hq : q.1 = p.1
        · simp [hasKeyA, lookupA, hq]
        · simpa [hasKeyA, lookupA, hq] using ih h

theorem lookupA_mem {β : Type} {k : String} {v : β} {l : List (String × β)}
    (h : lookupA k l = some v) : (k, v) ∈ l := by
  induction l with
  | nil => simp [lookupA] at h
  | cons p ps ih =>
      obtain ⟨a, b⟩ := p
      by_cases hp : a = k
      · have hb : b = v := by simpa [lookupA, hp] using h
        subst hp; subst hb
        exact List.mem_cons_self _ _
      · have h' : lookupA k ps = some v := by simpa [lookupA, hp] using h
        exact List.mem_cons_of_mem _ (ih h')

theorem lookupA_eq_none {β : Type} {k : String} {l : List (String × β)}
    (h : ∀ p ∈ l, p.1 ≠ k) : lookupA k l = none := by
  induction l with
  | nil => rfl
  | cons p ps ih =>
      simp [lookupA, h p (List.mem_cons_self p ps),
        ih (fun q hq => h q (List.mem_cons_of_mem _ hq))]

theorem lookupA_eq_none_of_not_mem {β : Type} {k : String} {l : List (String × β)}
    (h : k ∉ l.map Prod.fst) : lookupA k l = none :=
  lookupA_eq_none (fun _ hp hk => h (hk ▸ List.mem_map_of_mem Prod.fst hp))

theorem lookupA_of_mem_nodup {β : Type} {p : String × β} {l : List (String × β)}
    (hn : (l.map Prod.fst).Nodup) (h : p ∈ l) : lookupA p.1 l = some p.2 := by
  induction l with
  | nil => simp at h
  | cons q ps ih =>
      rw [List.map_cons, List.nodup_cons] at hn
      rcases List.mem_cons.mp h with h | h
      · subst h; simp [lookupA]
      · have hq : q.1 ≠ p.1 := fun he =>
          hn.1 (he ▸ List.mem_map_of_mem Prod.fst h)
        simp [lookupA, hq, ih hn.2 h]

theorem mem_setA {β : Type} {q : String × β} {k : String} {v : β}
    {l : List (String × β)} (h : q ∈ setA k v l) : q = (k, v) ∨ q ∈ l := by
  induction l with
  | nil => simpa [setA] using h
  | cons p ps ih =>
      by_cases hp : p.1 = k
      · rcases List.mem_cons.mp (by simpa [setA, hp] using h) with h | h
        · exact Or.inl h
        · exact Or.inr (List.mem_cons_of_mem _ h)
      · rcases List.mem_cons.mp (by simpa [setA, hp] using h) with h | h
        · exact Or.inr (h ▸ List.mem_cons_self _ _)
        · rcases ih h with h | h
          · exact Or.inl h
          · exact Or.inr (List.mem_cons_of_mem _ h)

/-! Merge lemmas. -/

theorem lookupA_append {β : Type} (k : String) (l1 l2 : List (String × β)) :
    lookupA k (l1 ++ l2) =
      match lookupA k l1 with
      | some v => some v
      | none => lookupA k l2 := by
  induction l1 with
  | nil => simp [lookupA]
  | cons p ps ih =>
      by_cases hp : p.1 = k
      · simp [lookupA, hp]
      · simp [lookupA, hp, ih]

theorem lookupA_filter_keys {k : Key} (o pay : Obj) :
    lookupA k (o.filter (fun p => ! hasKeyA p.1 pay)) =
      if hasKeyA k pay then none else lookupA k o := by
  induction o with
  | nil => simp [lookupA]
  | cons p o' ih =>
      by_cases hp : hasKeyA p.1 pay
      · by_cases hk : p.1 = k
        · simp [List.filter_cons, hp, lookupA, ih, hk ▸ hp, hk]
        · simp [List.filter_cons, hp, lookupA, ih, hk]
      · have hk2 : (hasKeyA k pay) = true → ¬(p.1 = k) := fun hh he => hp (he ▸ hh)
        by_cases hk : p.1 = k
        · have : hasKeyA k pay = false := by
            cases hh : hasKeyA k pay with
            | false => rfl
            | true => exact absurd hk (hk2 hh)
          simp [List.filter_cons, hp, lookupA, hk, this]
        · simp [List.filter_cons, hp, lookupA, hk, ih]

theorem lookupA_mergeObj (o pay : Obj) (k : Key) :
    lookupA k (mergeObj o pay) =
      if hasKeyA k pay then lookupA k pay else lookupA k o := by
  rw [mergeObj, lookupA_append, lookupA_filter_keys]
  by_cases h : hasKeyA k pay
  · simp [h]
  · have h0 : lookupA k pay = none := by
      cases hh : lookupA k pay with
      | none => rfl
      | some w => exact absurd (by simp [hasKeyA, hh]) h
    simp [h]
    cases hh : lookupA k o with
    | none => simpa using h0
    | some w => rfl

theorem filter_self_keys (pay : Obj) :
    pay.filter (fun p => ! hasKeyA p.1 pay) = [] := by
  apply List.filter_eq_nil_iff.mpr
  intro p hp
  simp [hasKeyA_of_mem hp]

theorem mergeObj_absorb (o pay : Obj) :
    mergeObj (mergeObj o pay) pay = mergeObj o pay := by
  simp [mergeObj, List.filter_append, filter_self_keys, List.filter_filter,
    Bool.and_self]

theorem addMember_ne_nil (c : ConnId) (ms : List ConnId) : addMember c ms ≠ [] := by
  unfold addMember
  split
  · next h => exact List.ne_nil_of_mem h
  · simp

/-! Disconnect lemmas. -/

theorem removeRoomUser_fst {conn : ConnId} {p q : Code × Room}
    (h : removeRoomUser conn p = some q) : q.1 = p.1 := by
  unfold removeRoomUser at h
  split at h
  · split at h
    · simp at h
    · injection h with h2
      rw [← h2]
  · injection h with h2
    rw [← h2]

theorem map_fst_filterMap_sublist (conn : ConnId) (l : List (Code × Room)) :
    ((l.filterMap (removeRoomUser conn)).map Prod.fst).Sublist (l.map Prod.fst) := by
  induction l with
  | nil => simp
  | cons p ps ih =>
      rw [List.filterMap_cons]
      cases h : removeRoomUser conn p with
      | none => exact List.Sublist.cons _ ih
      | some q =>
          rw [List.map_cons, List.map_cons, removeRoomUser_fst h]
          exact List.Sublist.cons₂ _ ih

theorem lookupA_filterMap_kept {conn : ConnId} {c : Code} {r r' : Room}
    {l : List (Code × Room)} (hl : lookupA c l = some r)
    (hk : removeRoomUser conn (c, r) = some (c, r')) :
    lookupA c (l.filterMap (removeRoomUser conn)) = some r' := by
  induction l with
  | nil => simp [lookupA] at hl
  | cons p ps ih =>
      obtain ⟨a, b⟩ := p
      by_cases hp : a = c
      · have hb : b = r := by simpa [lookupA, hp] using hl
        subst hp; subst hb
        rw [List.filterMap_cons, hk]
        simp [lookupA]
      · have hl' : lookupA c ps = some r := by simpa [lookupA, hp] using hl
        rw [List.filterMap_cons]
        cases hq : removeRoomUser conn (a, b) with
        | none => exact ih hl'
        | some q =>
            have hqa : q.1 = a := removeRoomUser_fst hq
            simp [lookupA, hqa, hp, ih hl']

theorem mem_foldr_append {α β : Type} {g : α → List β} {x : β} {c : α}
    {cs : List α} (hc : c ∈ cs) (hx : x ∈ g c) :
    x ∈ cs.foldr (fun cc acc => g cc ++ acc) [] := by
  induction cs with
  | nil => simp at hc
  | cons d ds ih =>
      rcases List.mem_cons.mp hc with h | h
      · subst h
        simp [hx]
      · simp [ih h]

/-! Step-case lemmas: how each gateway handler rewrites the store and
what it emits, as functions of the room lookup. -/

theorem membersOf_eq {rm : RoomManager} {c : Code} {room : Room}
    (h : lookupA c rm.rooms = some room) : membersOf rm c = room.members := by
  simp [membersOf, h]

theorem membersOf_none {rm : RoomManager} {c : Code}
    (h : lookupA c rm.rooms = none) : membersOf rm c = [] := by
  simp [membersOf, h]

theorem step_join_some {rm : RoomManager} {c : Code} {room : Room} (s : ConnId)
    (h : lookupA c rm.rooms = some room) :
    step rm (.joinRoom s c) =
      (⟨setA c ⟨addMember s room.members, room.cells⟩ rm.rooms⟩,
       (s, .roomJoined c room.cells) ::
         ((addMember s room.members).filter (fun m => decide (m ≠ s))).map
           (fun m => (m, .userJoined s))) := by
  have h1 : lookupA c (setA c (⟨addMember s room.members, room.cells⟩ : Room)
      rm.rooms) = some ⟨addMember s room.members, room.cells⟩ :=
    lookupA_setA_self c _ rm.rooms
  simp [step, joinRoom, h, membersOf, h1]

theorem step_join_none {rm : RoomManager} {c : Code} (s : ConnId)
    (h : lookupA c rm.rooms = none) :
    step rm (.joinRoom s c) = (rm, [(s, .roomError .roomNotFound)]) := by
  simp [step, joinRoom, h]

theorem step_hex_some {rm : RoomManager} {c : Code} {room : Room} (s : ConnId)
    (hexId : CellId) (action : Obj) (h : lookupA c rm.rooms = some room) :
    step rm (.hexClicked s c hexId action) =
      (⟨setA c
          ⟨room.members,
           setA hexId (mergeObj ((lookupA hexId room.cells).getD []) action)
             room.cells⟩
          rm.rooms⟩,
       room.members.map (fun m => (m, .hexUpdated hexId action))) := by
  have h1 : lookupA c (setA c
      (⟨room.members,
        setA hexId (mergeObj ((lookupA hexId room.cells).getD []) action)
          room.cells⟩ : Room) rm.rooms) =
      some ⟨room.members,
        setA hexId (mergeObj ((lookupA hexId room.cells).getD []) action)
          room.cells⟩ :=
    lookupA_setA_self c _ rm.rooms
  simp [step, updateHexState, h, membersOf, h1]

theorem step_hex_none {rm : RoomManager} {c : Code} (s : ConnId)
    (hexId : CellId) (action : Obj) (h : lookupA c rm.rooms = none) :
    step rm (.hexClicked s c hexId action) = (rm, []) := by
  simp [step, updateHexState, h]

theorem step_chat (rm : RoomManager) (s : ConnId) (c : Code) (message : String)
    (now : Nat) :
    step rm (.chatMessage s c message now) =
      (rm, (membersOf rm c).map (fun m => (m, .chatMessage s message now))) :=
  rfl

theorem step_disconnect (rm : RoomManager) (s : ConnId) :
    step rm (.disconnect s) =
      ((removeUserFromRooms rm s).1,
       (removeUserFromRooms rm s).2.foldr
         (fun c acc => userLeftEmits (removeUserFromRooms rm s).1 s c ++ acc)
         []) :=
  rfl

theorem run_cons (rm : RoomManager) (e : Event) (es : List Event) :
    run rm (e :: es) =
      ((run (step rm e).1 es).1, (step rm e).2 ++ (run (step rm e).1 es).2) :=
  rfl

/-! Reachability invariant. -/

theorem inv_init : Inv initRM := by
  constructor
  · intro p hp
    simp [initRM] at hp
  · simp [initRM]

theorem generate_fresh {draws live : List Code} {c : Code}
    (h : generate draws live = some c) : c ∉ live := by
  unfold generate at h
  have h2 := List.find?_some h
  simpa using h2

theorem inv_step (rm : RoomManager) (e : Event) (h : Inv rm) :
    Inv (step rm e).1 := by
  obtain ⟨hm, hn⟩ := h
  cases e with
  | createRoom s draws =>
      cases hg : generate draws (rm.rooms.map Prod.fst) with
      | none =>
          have hst : (step rm (.createRoom s draws)).1 = rm := by
            simp [step, createRoom, hg]
          rw [hst]; exact ⟨hm, hn⟩
      | some code =>
          have hfresh : code ∉ rm.rooms.map Prod.fst := generate_fresh hg
          have hst : (step rm (.createRoom s draws)).1 =
              ⟨(code, ⟨[s], []⟩) :: rm.rooms⟩ := by
            simp [step, createRoom, hg]
          rw [hst]
          constructor
          · intro p hp
            rcases List.mem_cons.mp hp with h | h
            · rw [h]; simp
            · exact hm p h
          · rw [List.map_cons, List.nodup_cons]
            exact ⟨hfresh, hn⟩
  | joinRoom s c =>
      cases hl : lookupA c rm.rooms with
      | none => rw [step_join_none s hl]; exact ⟨hm, hn⟩
      | some room =>
          rw [step_join_some s hl]
          constructor
          · intro p hp
            rcases mem_setA hp with h | h
            · rw [h]; exact addMember_ne_nil s room.members
            · exact hm p h
          · rw [map_fst_setA _ (by simp [hasKeyA, hl])]
            exact hn
  | hexClicked s c hexId action =>
      cases hl : lookupA c rm.rooms with
      | none => rw [step_hex_none s hexId action hl]; exact ⟨hm, hn⟩
      | some room =>
          rw [step_hex_some s hexId action hl]
          constructor
          · intro p hp
            rcases mem_setA hp with h | h
            · rw [h]; exact hm (c, room) (lookupA_mem hl)
            · exact hm p h
          · rw [map_fst_setA _ (by simp [hasKeyA, hl])]
            exact hn
  | chatMessage s c message now => exact ⟨hm, hn⟩
  | disconnect s =>
      constructor
      · intro p hp
        obtain ⟨q, hq, hfq⟩ := List.mem_filterMap.mp hp
        unfold removeRoomUser at hfq
        split at hfq
        · split at hfq
          · simp at hfq
          · next hne =>
              injection hfq with h2
              rw [← h2]
              exact hne
        · injection hfq with h2
          rw [← h2]
          exact hm q hq
      · exact hn.sublist (map_fst_filterMap_sublist s rm.rooms)

theorem run_inv (tr : List Event) : ∀ rm, Inv rm → Inv (run rm tr).1 := by
  induction tr with
  | nil => intro rm h; exact h
  | cons e es ih => intro rm h; exact ih _ (inv_step rm e h)

theorem reachable_inv {rm : RoomManager} (h : Reachable rm) : Inv rm := by
  obtain ⟨tr, htr⟩ := h
  exact htr ▸ run_inv tr initRM inv_init

theorem run_cons_fst (rm : RoomManager) (e : Event) (es : List Event) :
    (run rm (e :: es)).1 = (run (step rm e).1 es).1 :=
  rfl

/-- Running a sequence of cell mutations against an existing room folds
the merge over the payloads, starting from the cell's prior state. -/
theorem run_hexes (code : Code) (cellId : CellId) :
    ∀ (ps : List (ConnId × Obj)) (rm : RoomManager) (room : Room),
      lookupA code rm.rooms = some room →
      ∃ room' : Room,
        lookupA code
            ((run rm (ps.map (fun p => Event.hexClicked p.1 code cellId p.2))).1).rooms
          = some room' ∧
        room'.members = room.members ∧
        lookupA cellId room'.cells =
          ps.foldl (fun acc p => some (mergeObj (acc.getD []) p.2))
            (lookupA cellId room.cells) := by
  intro ps
  induction ps with
  | nil =>
      intro rm room h
      exact ⟨room, h, rfl, rfl⟩
  | cons p ps' ih =>
      intro rm room h
      have h1 : (step rm (Event.hexClicked p.1 code cellId p.2)).1 =
          RoomManager.mk (setA code (Room.mk room.members
            (setA cellId (mergeObj ((lookupA cellId room.cells).getD []) p.2)
              room.cells)) rm.rooms) := by
        rw [step_hex_some p.1 cellId p.2 h]
      have h2 : lookupA code
          ((step rm (Event.hexClicked p.1 code cellId p.2)).1).rooms =
          some (Room.mk room.members
            (setA cellId (mergeObj ((lookupA cellId room.cells).getD []) p.2)
              room.cells)) := by
        rw [h1]
        exact lookupA_setA_self code _ rm.rooms
      obtain ⟨room', ha, hb, hc⟩ := ih _ _ h2
      refine ⟨room', ?_, ?_, ?_⟩
      · rw [List.map_cons, run_cons_fst]
        exact ha
      · rw [hb]
      · simpa [lookupA_setA_self, List.foldl_cons] using hc

/-- A nonempty optional fold of merges is the plain fold started from
the prior state, or from the empty object when the cell was absent. -/
theorem optFold_merge (ps : List (ConnId × Obj)) :
    ∀ init : Option Obj, ps ≠ [] →
      ps.foldl (fun acc p => some (mergeObj (acc.getD []) p.2)) init =
        some (ps.foldl (fun acc p => mergeObj acc p.2) (init.getD [])) := by
  induction ps with
  | nil => intro _ h; exact absurd rfl h
  | cons p ps' ih =>
      intro init _
      by_cases h2 : ps' = []
      · subst h2; simp
      · rw [List.foldl_cons, List.foldl_cons, ih _ h2]
        simp

/-- Claim C1: for every room, cell identifier and sequence of
successfully-applied cell-mutation requests, the resulting cell state is
the left-to-right key-wise merge of the applied payloads in
gateway-receipt order, regardless of the senders; the entry is created
when the cell had no prior state, and the merge is key-wise: a key of
the incoming payload overwrites the old value of that name, a key absent
from the payload keeps its old value. -/
theorem c1_cell_state_merge (rm : RoomManager) (code : Code) (room : Room)
    (cellId : CellId) (ps : List (ConnId × Obj))
    (h : lookupA code rm.rooms = some room) :
    (∃ room' : Room,
      lookupA code
          ((run rm (ps.map (fun p => Event.hexClicked p.1 code cellId p.2))).1).rooms
        = some room' ∧
      room'.members = room.members ∧
      lookupA cellId room'.cells =
        (if ps = [] then lookupA cellId room.cells
         else some (ps.foldl (fun acc p => mergeObj acc p.2)
           ((lookupA cellId room.cells).getD [])))) ∧
    (∀ (old pay : Obj) (k : Key),
      lookupA k (mergeObj old pay) =
        if hasKeyA k pay then lookupA k pay else lookupA k old) := by
  constructor
  · obtain ⟨room', ha, hb, hc⟩ := run_hexes code cellId ps rm room h
    refine ⟨room', ha, hb, ?_⟩
    by_cases hps : ps = []
    · subst hps
      simpa using hc
    · rw [hc, optFold_merge ps _ hps, if_neg hps]
  · exact fun old pay k => lookupA_mergeObj old pay k

/-- Witness for C1: the scenario of spec §8 — two members, a first
mutation setting color and height, a second mutation carrying the
height alone; the surviving cell state is the key-wise merge. -/
theorem c1_cell_state_merge_witness :
    (∃ room' : Room,
      lookupA "AB12C"
          ((run (RoomManager.mk [("AB12C", Room.mk ["u2", "u1"] [])])
            ([("u1", [("color", "#FF0000"), ("height", "1.0")]),
              ("u2", [("height", "2.0")])].map
              (fun p => Event.hexClicked p.1 "AB12C" "0,0" p.2))).1).rooms
        = some room' ∧
      room'.members = (Room.mk ["u2", "u1"] []).members ∧
      lookupA "0,0" room'.cells =
        (if ([("u1", [("color", "#FF0000"), ("height", "1.0")]),
              ("u2", [("height", "2.0")])] : List (ConnId × Obj)) = []
         then lookupA "0,0" (Room.mk ["u2", "u1"] []).cells
         else some ([("u1", [("color", "#FF0000"), ("height", "1.0")]),
              ("u2", [("height", "2.0")])].foldl
           (fun acc p => mergeObj acc p.2)
           ((lookupA "0,0" (Room.mk ["u2", "u1"] []).cells).getD [])))) ∧
    (∀ (old pay : Obj) (k : Key),
      lookupA k (mergeObj old pay) =
        if hasKeyA k pay then lookupA k pay else lookupA k old) :=
  c1_cell_state_merge (RoomManager.mk [("AB12C", Room.mk ["u2", "u1"] [])])
    "AB12C" (Room.mk ["u2", "u1"] []) "0,0"
    [("u1", [("color", "#FF0000"), ("height", "1.0")]),
     ("u2", [("height", "2.0")])]
    (by decide)

theorem step_hex_fst (rm : RoomManager) (s : ConnId) (code : Code)
    (hexId : CellId) (action : Obj) :
    (step rm (.hexClicked s code hexId action)).1 =
      (updateHexState rm code hexId action).1 := by
  cases h : updateHexState rm code hexId action with
  | mk rm1 b => cases b <;> simp [step, h]

/-- Claim C9: the cell-state merge is idempotent — re-applying the same
cell mutation leaves the whole store exactly as one application did,
both at the store operation and across the gateway. -/
theorem c9_update_idempotent (rm : RoomManager) (code : Code) (hexId : CellId)
    (action : Obj) :
    updateHexState ((updateHexState rm code hexId action).1) code hexId action =
      updateHexState rm code hexId action ∧
    (∀ s : ConnId,
      (run rm [Event.hexClicked s code hexId action,
               Event.hexClicked s code hexId action]).1 =
        (run rm [Event.hexClicked s code hexId action]).1) := by
  have hmain : updateHexState ((updateHexState rm code hexId action).1) code
      hexId action = updateHexState rm code hexId action := by
    cases hl : lookupA code rm.rooms with
    | none => simp [updateHexState, hl]
    | some room =>
        have h1 : updateHexState rm code hexId action =
            (⟨setA code (Room.mk room.members
              (setA hexId (mergeObj ((lookupA hexId room.cells).getD []) action)
                room.cells)) rm.rooms⟩, true) := by
          simp [updateHexState, hl]
        rw [h1]
        simp [updateHexState, lookupA_setA_self, mergeObj_absorb, setA_setA]
  refine ⟨hmain, fun s => ?_⟩
  show (run (step rm (Event.hexClicked s code hexId action)).1
      [Event.hexClicked s code hexId action]).1 =
    (run (step rm (Event.hexClicked s code hexId action)).1 []).1
  show (step (step rm (Event.hexClicked s code hexId action)).1
      (Event.hexClicked s code hexId action)).1 =
    (step rm (Event.hexClicked s code hexId action)).1
  rw [step_hex_fst, step_hex_fst, hmain]

theorem self_mem_addMember (conn : ConnId) (ms : List ConnId) :
    conn ∈ addMember conn ms := by
  unfold addMember
  split
  · next h => exact h
  · exact List.mem_cons_self _ _

theorem mem_addMember {conn m : ConnId} {ms : List ConnId}
    (h : m ∈ addMember conn ms) : m = conn ∨ m ∈ ms := by
  unfold addMember at h
  split at h
  · exact Or.inr h
  · exact List.mem_cons.mp h

theorem mem_addMember_of_mem (conn : ConnId) {m : ConnId} {ms : List ConnId}
    (h : m ∈ ms) : m ∈ addMember conn ms := by
  unfold addMember
  split
  · exact h
  · exact List.mem_cons_of_mem _ h

/-- Claim C2: on a join request, if the room exists the connection is
added to the membership, the requester (and only the requester) receives
the room code with a snapshot of the full cells map, and a member-joined
notification goes to the room's other members and never to the
requester; if the room does not exist, the requester alone receives
RoomNotFound, nothing changes, and nobody else hears anything. -/
theorem c2_join_behavior (rm : RoomManager) (s : ConnId) (c : Code) :
    (∀ room : Room, lookupA c rm.rooms = some room →
      step rm (.joinRoom s c) =
        (⟨setA c ⟨addMember s room.members, room.cells⟩ rm.rooms⟩,
         (s, .roomJoined c room.cells) ::
           ((addMember s room.members).filter (fun m => decide (m ≠ s))).map
             (fun m => (m, .userJoined s))) ∧
      lookupA c ((step rm (.joinRoom s c)).1).rooms =
        some ⟨addMember s room.members, room.cells⟩ ∧
      s ∈ addMember s room.members ∧
      (s, Msg.roomJoined c room.cells) ∈ (step rm (.joinRoom s c)).2 ∧
      (∀ m, m ∈ room.members → m ≠ s →
        (m, Msg.userJoined s) ∈ (step rm (.joinRoom s c)).2) ∧
      (s, Msg.userJoined s) ∉ (step rm (.joinRoom s c)).2 ∧
      (∀ x ∈ (step rm (.joinRoom s c)).2,
        x = (s, Msg.roomJoined c room.cells) ∨
          (x.2 = Msg.userJoined s ∧ x.1 ∈ room.members ∧ x.1 ≠ s))) ∧
    (lookupA c rm.rooms = none →
      step rm (.joinRoom s c) = (rm, [(s, .roomError .roomNotFound)])) := by
  constructor
  · intro room h
    have hst := step_join_some s h
    refine ⟨hst, ?_, self_mem_addMember s room.members, ?_, ?_, ?_, ?_⟩
    · rw [hst]
      exact lookupA_setA_self c _ rm.rooms
    · rw [hst]
      exact List.mem_cons_self _ _
    · intro m hm hms
      rw [hst]
      refine List.mem_cons_of_mem _ (List.mem_map.mpr ⟨m, ?_, rfl⟩)
      exact List.mem_filter.mpr ⟨mem_addMember_of_mem s hm, by simp [hms]⟩
    · rw [hst]
      intro hmem
      rcases List.mem_cons.mp hmem with hh | hh
      · exact Msg.noConfusion (congrArg Prod.snd hh)
      · obtain ⟨m, hmf, hme⟩ := List.mem_map.mp hh
        have hms : m ≠ s := of_decide_eq_true (List.mem_filter.mp hmf).2
        exact hms (congrArg Prod.fst hme)
    · intro x hx
      rw [hst] at hx
      rcases List.mem_cons.mp hx with hh | hh
      · exact Or.inl hh
      · obtain ⟨m, hmf, hme⟩ := List.mem_map.mp hh
        have hfm := List.mem_filter.mp hmf
        have hms : m ≠ s := of_decide_eq_true hfm.2
        have hmm : m ∈ room.members := by
          rcases mem_addMember hfm.1 with hh2 | hh2
          · exact absurd hh2 hms
          · exact hh2
        rw [← hme]
        exact Or.inr ⟨rfl, hmm, hms⟩
  · exact fun h => step_join_none s h

/-- Witness for C2: joining an existing room delivers the snapshot to
the requester and notifies the other member; joining an unknown code
yields RoomNotFound to the requester only. -/
theorem c2_join_behavior_witness :
    step (RoomManager.mk [("AB12C", Room.mk ["u1"] [])])
        (.joinRoom "u2" "AB12C") =
      (RoomManager.mk [("AB12C", Room.mk ["u2", "u1"] [])],
       [("u2", Msg.roomJoined "AB12C" []), ("u1", Msg.userJoined "u2")]) ∧
    step (RoomManager.mk [("AB12C", Room.mk ["u1"] [])])
        (.joinRoom "u2" "ZZZZZ") =
      (RoomManager.mk [("AB12C", Room.mk ["u1"] [])],
       [("u2", Msg.roomError .roomNotFound)]) := by
  constructor
  · have h := ((c2_join_behavior (RoomManager.mk [("AB12C", Room.mk ["u1"] [])])
        "u2" "AB12C").1 (Room.mk ["u1"] []) (by decide)).1
    rw [h]
    decide
  · exact (c2_join_behavior (RoomManager.mk [("AB12C", Room.mk ["u1"] [])])
      "u2" "ZZZZZ").2 (by decide)

/-- Claim C3: a cell-mutation request against an existing room makes
`updateHexState` succeed and broadcasts the cell id and payload to all
members of the room, the sender among them when it is a member; against
an absent room `updateHexState` returns false, nothing is broadcast and
no error goes back to the caller. -/
theorem c3_hex_broadcast (rm : RoomManager) (s : ConnId) (c : Code)
    (hexId : CellId) (action : Obj) :
    (∀ room : Room, lookupA c rm.rooms = some room →
      (updateHexState rm c hexId action).2 = true ∧
      (step rm (.hexClicked s c hexId action)).2 =
        room.members.map (fun m => (m, Msg.hexUpdated hexId action)) ∧
      (s ∈ room.members →
        (s, Msg.hexUpdated hexId action) ∈
          (step rm (.hexClicked s c hexId action)).2)) ∧
    (lookupA c rm.rooms = none →
      (updateHexState rm c hexId action).2 = false ∧
      step rm (.hexClicked s c hexId action) = (rm, [])) := by
  constructor
  · intro room h
    have hst := step_hex_some s hexId action h
    refine ⟨by simp [updateHexState, h], by rw [hst], ?_⟩
    intro hs
    rw [hst]
    exact List.mem_map.mpr ⟨s, hs, rfl⟩
  · intro h
    exact ⟨by simp [updateHexState, h], step_hex_none s hexId action h⟩

/-- Witness for C3: a mutation against a live room is applied and
broadcast to both members, the sender included; a mutation against a
dead code is dropped with no reply. -/
theorem c3_hex_broadcast_witness :
    (updateHexState (RoomManager.mk [("AB12C", Room.mk ["u1", "u2"] [])])
        "AB12C" "0,0" [("height", "1.0")]).2 = true ∧
    (step (RoomManager.mk [("AB12C", Room.mk ["u1", "u2"] [])])
        (.hexClicked "u1" "AB12C" "0,0" [("height", "1.0")])).2 =
      [("u1", Msg.hexUpdated "0,0" [("height", "1.0")]),
       ("u2", Msg.hexUpdated "0,0" [("height", "1.0")])] ∧
    step (RoomManager.mk [("AB12C", Room.mk ["u1", "u2"] [])])
        (.hexClicked "u1" "ZZZZZ" "0,0" [("height", "1.0")]) =
      (RoomManager.mk [("AB12C", Room.mk ["u1", "u2"] [])], []) := by
  have h := c3_hex_broadcast (RoomManager.mk [("AB12C", Room.mk ["u1", "u2"] [])])
    "u1" "AB12C" "0,0" [("height", "1.0")]
  have h2 := c3_hex_broadcast (RoomManager.mk [("AB12C", Room.mk ["u1", "u2"] [])])
    "u1" "ZZZZZ" "0,0" [("height", "1.0")]
  refine ⟨(h.1 (Room.mk ["u1", "u2"] []) (by decide)).1, ?_, (h2.2 (by decide)).2⟩
  rw [(h.1 (Room.mk ["u1", "u2"] []) (by decide)).2.1]
  decide

/-- Claim C8: a chat request never changes stored room state; against an
existing room it broadcasts the sender identity, text and timestamp to
all current members, the sender among them when it is a member; against
an absent room nothing is delivered and no error goes back. -/
theorem c8_chat_behavior (rm : RoomManager) (s : ConnId) (c : Code)
    (message : String) (now : Nat) :
    (step rm (.chatMessage s c message now)).1 = rm ∧
    (∀ room : Room, lookupA c rm.rooms = some room →
      (step rm (.chatMessage s c message now)).2 =
        room.members.map (fun m => (m, Msg.chatMessage s message now)) ∧
      (s ∈ room.members →
        (s, Msg.chatMessage s message now) ∈
          (step rm (.chatMessage s c message now)).2)) ∧
    (lookupA c rm.rooms = none →
      (step rm (.chatMessage s c message now)).2 = []) := by
  refine ⟨rfl, ?_, ?_⟩
  · intro room h
    constructor
    · rw [step_chat, membersOf_eq h]
    · intro hs
      rw [step_chat]
      exact List.mem_map.mpr ⟨s, (membersOf_eq h).symm ▸ hs, rfl⟩
  · intro h
    rw [step_chat, membersOf_none h]
    simp

/-- Witness for C8: a chat in a live room reaches both members, stamped
with sender and timestamp, and leaves the store unchanged; a chat
against a dead code reaches nobody. -/
theorem c8_chat_behavior_witness :
    (step (RoomManager.mk [("AB12C", Room.mk ["u1", "u2"] [])])
        (.chatMessage "u1" "AB12C" "hello" 42)).1 =
      RoomManager.mk [("AB12C", Room.mk ["u1", "u2"] [])] ∧
    (step (RoomManager.mk [("AB12C", Room.mk ["u1", "u2"] [])])
        (.chatMessage "u1" "AB12C" "hello" 42)).2 =
      [("u1", Msg.chatMessage "u1" "hello" 42),
       ("u2", Msg.chatMessage "u1" "hello" 42)] ∧
    (step (RoomManager.mk [("AB12C", Room.mk ["u1", "u2"] [])])
        (.chatMessage "u1" "ZZZZZ" "hello" 42)).2 = [] := by
  have h := c8_chat_behavior (RoomManager.mk [("AB12C", Room.mk ["u1", "u2"] [])])
    "u1" "AB12C" "hello" 42
  have h2 := c8_chat_behavior (RoomManager.mk [("AB12C", Room.mk ["u1", "u2"] [])])
    "u1" "ZZZZZ" "hello" 42
  refine ⟨h.1, ?_, h2.2.2 (by decide)⟩
  rw [(h.2.1 (Room.mk ["u1", "u2"] []) (by decide)).1]
  decide

/-- Claim C10: the gateway performs no membership check on cell
mutation: the entire outcome of a hexClicked event — store change and
broadcast alike — is independent of the sending connection, whose
identity is never passed to `updateHexState`; a connection that never
joined the room still gets its mutation applied and broadcast to the
room's members. -/
theorem c10_no_membership_check (rm : RoomManager) (c : Code) (hexId : CellId)
    (action : Obj) :
    (∀ s1 s2 : ConnId,
      step rm (.hexClicked s1 c hexId action) =
        step rm (.hexClicked s2 c hexId action)) ∧
    (∀ (s : ConnId) (room : Room), lookupA c rm.rooms = some room →
      s ∉ room.members →
      (updateHexState rm c hexId action).2 = true ∧
      (step rm (.hexClicked s c hexId action)).2 =
        room.members.map (fun m => (m, Msg.hexUpdated hexId action))) := by
  refine ⟨fun s1 s2 => rfl, ?_⟩
  intro s room h _
  exact ⟨by simp [updateHexState, h], by rw [step_hex_some s hexId action h]⟩

/-- Witness for C10: a connection that never joined the room mutates a
cell; the merge is applied and the lone actual member is notified. -/
theorem c10_no_membership_check_witness :
    (updateHexState (RoomManager.mk [("AB12C", Room.mk ["u1"] [])])
        "AB12C" "0,0" [("height", "1.0")]).2 = true ∧
    (step (RoomManager.mk [("AB12C", Room.mk ["u1"] [])])
        (.hexClicked "ghost" "AB12C" "0,0" [("height", "1.0")])).2 =
      [("u1", Msg.hexUpdated "0,0" [("height", "1.0")])] := by
  have h := (c10_no_membership_check (RoomManager.mk [("AB12C", Room.mk ["u1"] [])])
    "AB12C" "0,0" [("height", "1.0")]).2 "ghost" (Room.mk ["u1"] [])
    (by decide) (by decide)
  refine ⟨h.1, ?_⟩
  rw [h.2]
  decide

/-- Claim C4: in every reachable store every live room has at least one
member; a room is created with its creator as sole member; a join of an
absent code fails with RoomNotFound; and a disconnect that empties a
room removes it from the store on the spot. -/
theorem c4_no_empty_rooms {rm : RoomManager} (h : Reachable rm) :
    (∀ (c : Code) (room : Room), lookupA c rm.rooms = some room →
      room.members ≠ []) ∧
    (∀ (o : ConnId) (draws : List Code) (rm1 : RoomManager) (c : Code),
      createRoom rm o draws = some (rm1, c) →
      lookupA c rm1.rooms = some (Room.mk [o] [])) ∧
    (∀ (s : ConnId) (c : Code), lookupA c rm.rooms = none →
      step rm (.joinRoom s c) = (rm, [(s, .roomError .roomNotFound)])) ∧
    (∀ (s : ConnId) (c : Code) (room : Room),
      lookupA c rm.rooms = some room →
      room.members.filter (fun m => decide (m ≠ s)) = [] →
      lookupA c ((step rm (.disconnect s)).1).rooms = none) := by
  obtain ⟨hm, hn⟩ := reachable_inv h
  refine ⟨?_, ?_, ?_, ?_⟩
  · intro c room hl
    exact hm (c, room) (lookupA_mem hl)
  · intro o draws rm1 c hc
    cases hg : generate draws (rm.rooms.map Prod.fst) with
    | none => simp [createRoom, hg] at hc
    | some code =>
        simp only [createRoom, hg, Option.some.injEq, Prod.mk.injEq] at hc
        obtain ⟨h1, h2⟩ := hc
        subst h2
        subst h1
        simp [lookupA]
  · intro s c hl
    exact step_join_none s hl
  · intro s c room hl hfil
    have hmem : (c, room) ∈ rm.rooms := lookupA_mem hl
    have hs : s ∈ room.members := by
      cases hms : room.members with
      | nil => exact absurd hms (hm (c, room) hmem)
      | cons m ms =>
          by_cases hd : m = s
          · simp [hd]
          · rw [hms] at hfil
            simp [List.filter_cons, hd] at hfil
    have hrru : removeRoomUser s (c, room) = none := by
      show (if s ∈ room.members then
          if room.members.filter (fun m => decide (m ≠ s)) = [] then none
          else some (c, (⟨room.members.filter (fun m => decide (m ≠ s)),
            room.cells⟩ : Room))
        else some (c, room)) = none
      rw [if_pos hs, if_pos hfil]
    apply lookupA_eq_none
    intro p hp he
    obtain ⟨q, hq, hfq⟩ := List.mem_filterMap.mp hp
    obtain ⟨a, b⟩ := q
    have hq1 : a = c := (removeRoomUser_fst hfq).symm.trans he
    have hlq : lookupA a rm.rooms = some b := lookupA_of_mem_nodup hn hq
    rw [hq1, hl] at hlq
    have hb : b = room := (Option.some.inj hlq).symm
    rw [hq1, hb, hrru] at hfq
    exact Option.noConfusion hfq

/-- Witness for C4: after creating a room, its membership is nonempty,
and disconnecting the sole member removes the room from the store. -/
theorem c4_no_empty_rooms_witness :
    (Room.mk ["u1"] ([] : Cells)).members ≠ [] ∧
    lookupA "AB12C" ((step (RoomManager.mk [("AB12C", Room.mk ["u1"] [])])
      (Event.disconnect "u1")).1).rooms = none := by
  have h := @c4_no_empty_rooms (RoomManager.mk [("AB12C", Room.mk ["u1"] [])])
    ⟨[Event.createRoom "u1" ["AB12C"]], by decide⟩
  exact ⟨h.1 "AB12C" (Room.mk ["u1"] []) (by decide),
    h.2.2.2 "u1" "AB12C" (Room.mk ["u1"] []) (by decide) (by decide)⟩

/-- Claim C6: in every reachable store the live room codes are pairwise
distinct; the code generator never returns a code already live, so
`createRoom` always registers the room under a fresh code and keeps the
codes distinct. -/
theorem c6_unique_codes {rm : RoomManager} (h : Reachable rm) :
    (rm.rooms.map Prod.fst).Nodup ∧
    (∀ (draws : List Code) (c : Code),
      generate draws (rm.rooms.map Prod.fst) = some c →
      lookupA c rm.rooms = none) ∧
    (∀ (o : ConnId) (draws : List Code) (rm1 : RoomManager) (c : Code),
      createRoom rm o draws = some (rm1, c) →
      lookupA c rm.rooms = none ∧
      lookupA c rm1.rooms = some (Room.mk [o] []) ∧
      (rm1.rooms.map Prod.fst).Nodup) := by
  obtain ⟨hm, hn⟩ := reachable_inv h
  refine ⟨hn, ?_, ?_⟩
  · intro draws c hg
    exact lookupA_eq_none_of_not_mem (generate_fresh hg)
  · intro o draws rm1 c hc
    cases hg : generate draws (rm.rooms.map Prod.fst) with
    | none => simp [createRoom, hg] at hc
    | some code =>
        simp only [createRoom, hg, Option.some.injEq, Prod.mk.injEq] at hc
        obtain ⟨h1, h2⟩ := hc
        subst h2
        subst h1
        refine ⟨lookupA_eq_none_of_not_mem (generate_fresh hg),
          by simp [lookupA], ?_⟩
        rw [List.map_cons, List.nodup_cons]
        exact ⟨generate_fresh hg, hn⟩

/-- Witness for C6: a store reached by one create has distinct codes,
and a generator draw that avoids the live code finds no room. -/
theorem c6_unique_codes_witness :
    ((RoomManager.mk [("AB12C", Room.mk ["u1"] [])]).rooms.map Prod.fst).Nodup ∧
    lookupA "ZZZZZ" (RoomManager.mk [("AB12C", Room.mk ["u1"] [])]).rooms =
      none := by
  have h := @c6_unique_codes (RoomManager.mk [("AB12C", Room.mk ["u1"] [])])
    ⟨[Event.createRoom "u1" ["AB12C"]], by decide⟩
  exact ⟨h.1, h.2.1 ["ZZZZZ"] "ZZZZZ" (by decide)⟩

/-- Claim C5: a successful join delivers a snapshot equal to the room's
cells map at the moment of join, and no subsequent event sequence — in
particular no later cell mutation — alters the already-delivered
snapshot record. -/
theorem c5_snapshot_no_alias (rm : RoomManager) (s : ConnId) (c : Code)
    (room : Room) (es : List Event) (h : lookupA c rm.rooms = some room) :
    (step rm (.joinRoom s c)).2.head? = some (s, Msg.roomJoined c room.cells) ∧
    (run rm (Event.joinRoom s c :: es)).2.head? =
      some (s, Msg.roomJoined c room.cells) := by
  have hst := step_join_some s h
  constructor
  · rw [hst]
    rfl
  · rw [run_cons]
    rw [hst]
    simp

/-- Witness for C5: the snapshot delivered on join still reads the cell
state from the moment of join even after a later mutation of that cell
by another member. -/
theorem c5_snapshot_no_alias_witness :
    (run (RoomManager.mk
        [("AB12C", Room.mk ["u1"] [("0,0", [("height", "1.0")])])])
      (Event.joinRoom "u2" "AB12C" ::
        [Event.hexClicked "u1" "AB12C" "0,0" [("height", "2.0")]])).2.head? =
      some ("u2", Msg.roomJoined "AB12C" [("0,0", [("height", "1.0")])]) :=
  (c5_snapshot_no_alias
    (RoomManager.mk [("AB12C", Room.mk ["u1"] [("0,0", [("height", "1.0")])])])
    "u2" "AB12C" (Room.mk ["u1"] [("0,0", [("height", "1.0")])])
    [Event.hexClicked "u1" "AB12C" "0,0" [("height", "2.0")]]
    (by decide)).2

/-- Claim C7: a disconnect removes the connection from every room it
belonged to and returns exactly those rooms' codes; rooms it did not
belong to are untouched; a room where it was not the last member
survives with its remaining members and cells intact; no surviving room
still lists the connection; and the remaining members of each surviving
affected room receive a member-left notification. -/
theorem c7_disconnect_cleanup (rm : RoomManager) (s : ConnId) :
    (removeUserFromRooms rm s).2 =
      (rm.rooms.filter (fun p => decide (s ∈ p.2.members))).map Prod.fst ∧
    (∀ (c : Code) (room : Room), lookupA c rm.rooms = some room →
      s ∉ room.members →
      lookupA c ((removeUserFromRooms rm s).1).rooms = some room) ∧
    (∀ (c : Code) (room : Room), lookupA c rm.rooms = some room →
      s ∈ room.members →
      room.members.filter (fun m => decide (m ≠ s)) ≠ [] →
      lookupA c ((removeUserFromRooms rm s).1).rooms =
        some (Room.mk (room.members.filter (fun m => decide (m ≠ s)))
          room.cells)) ∧
    (∀ (c : Code) (room' : Room),
      lookupA c ((removeUserFromRooms rm s).1).rooms = some room' →
      s ∉ room'.members) ∧
    (∀ (c : Code) (room' : Room), c ∈ (removeUserFromRooms rm s).2 →
      lookupA c ((step rm (.disconnect s)).1).rooms = some room' →
      ∀ m ∈ room'.members,
        (m, Msg.userLeft s) ∈ (step rm (.disconnect s)).2) := by
  have hpart4 : ∀ (c : Code) (room' : Room),
      lookupA c ((removeUserFromRooms rm s).1).rooms = some room' →
      s ∉ room'.members := by
    intro c room' hl
    obtain ⟨q, hq, hfq⟩ := List.mem_filterMap.mp (lookupA_mem hl)
    unfold removeRoomUser at hfq
    split at hfq
    · split at hfq
      · exact Option.noConfusion hfq
      · injection hfq with h2
        have hsnd := congrArg Prod.snd h2
        dsimp only at hsnd
        rw [← hsnd]
        simp
    · next hns =>
        injection hfq with h2
        have hsnd := congrArg Prod.snd h2
        dsimp only at hsnd
        rw [← hsnd]
        exact hns
  refine ⟨rfl, ?_, ?_, hpart4, ?_⟩
  · intro c room hl hns
    exact lookupA_filterMap_kept hl (by simp [removeRoomUser, hns])
  · intro c room hl hmem hne
    refine lookupA_filterMap_kept hl ?_
    show (if s ∈ room.members then
        if room.members.filter (fun m => decide (m ≠ s)) = [] then none
        else some (c, (⟨room.members.filter (fun m => decide (m ≠ s)),
          room.cells⟩ : Room))
      else some (c, room)) =
      some (c, Room.mk (room.members.filter (fun m => decide (m ≠ s)))
        room.cells)
    rw [if_pos hmem, if_neg hne]
  · intro c room' hc hl m hm
    have hl' : lookupA c ((removeUserFromRooms rm s).1).rooms = some room' := hl
    have hms : m ≠ s := fun he => hpart4 c room' hl' (he ▸ hm)
    rw [step_disconnect]
    refine mem_foldr_append hc (List.mem_map.mpr ⟨m, ?_, rfl⟩)
    refine List.mem_filter.mpr ⟨?_, by simp [hms]⟩
    exact (membersOf_eq hl').symm ▸ hm

/-- Witness for C7: disconnecting a member of two rooms returns both
codes, keeps the two-member room alive with the other member and its
cells intact, and notifies that member. -/
theorem c7_disconnect_cleanup_witness :
    (removeUserFromRooms (RoomManager.mk
        [("AAAAA", Room.mk ["u1", "u2"] [("0,0", [("color", "red")])]),
         ("BBBBB", Room.mk ["u1"] [])]) "u1").2 = ["AAAAA", "BBBBB"] ∧
    lookupA "AAAAA" ((removeUserFromRooms (RoomManager.mk
        [("AAAAA", Room.mk ["u1", "u2"] [("0,0", [("color", "red")])]),
         ("BBBBB", Room.mk ["u1"] [])]) "u1").1).rooms =
      some (Room.mk ["u2"] [("0,0", [("color", "red")])]) ∧
    ("u2", Msg.userLeft "u1") ∈
      (step (RoomManager.mk
        [("AAAAA", Room.mk ["u1", "u2"] [("0,0", [("color", "red")])]),
         ("BBBBB", Room.mk ["u1"] [])]) (.disconnect "u1")).2 := by
  have h := c7_disconnect_cleanup (RoomManager.mk
    [("AAAAA", Room.mk ["u1", "u2"] [("0,0", [("color", "red")])]),
     ("BBBBB", Room.mk ["u1"] [])]) "u1"
  refine ⟨by rw [h.1]; decide, ?_, ?_⟩
  · have h3 := h.2.2.1 "AAAAA" (Room.mk ["u1", "u2"] [("0,0", [("color", "red")])])
      (by decide) (by decide) (by decide)
    rw [h3]
    decide
  · exact h.2.2.2.2 "AAAAA" (Room.mk ["u2"] [("0,0", [("color", "red")])])
      (by decide) (by decide) "u2" (by decide)

end HexServer
